import Mathlib

/-!
Verification of the rig place-and-route geometry and routing utilities.

The definitions below are shallow embeddings of the Python source:
* `src/rig/geometry.py` (coordinate algebra, path lengths, concentric hexagons)
* `src/rig/place_and_route/route/utils.py` (`longest_dimension_first`)
* `src/rig/place_and_route/route/ner.py` (`ner_net`, `copy_and_disconnect_tree`)
* `src/rig/machine.py` (`Machine` and its item/membership operations)

Python integers are modelled by `Int`; Python `%` agrees with `Int.emod`
for the positive moduli used by the code.  Python dicts are modelled by
association lists with first-match lookup, and Python sets of added edges
by lists with add-if-absent.  Sites where the Python code draws random
numbers (tie-breaks) are modelled by explicit choice parameters.
-/

namespace Rig

/-- `to_xyz` from src/rig/geometry.py: convert `(x, y)` into `(x, y, 0)`. -/
def to_xyz (xy : Int × Int) : Int × Int × Int := (xy.1, xy.2, 0)

/-- `minimise_xyz` from src/rig/geometry.py:
`m = max(min(x, y), min(max(x, y), z)); return (x-m, y-m, z-m)`. -/
def minimise_xyz (v : Int × Int × Int) : Int × Int × Int :=
  (v.1 - max (min v.1 v.2.1) (min (max v.1 v.2.1) v.2.2),
   v.2.1 - max (min v.1 v.2.1) (min (max v.1 v.2.1) v.2.2),
   v.2.2 - max (min v.1 v.2.1) (min (max v.1 v.2.1) v.2.2))

/-- `shortest_mesh_path_length` from src/rig/geometry.py:
`x, y, z = d - s; return max(x, y, z) - min(x, y, z)`. -/
def shortest_mesh_path_length (source destination : Int × Int × Int) : Int :=
  max (destination.1 - source.1)
      (max (destination.2.1 - source.2.1) (destination.2.2 - source.2.2)) -
    min (destination.1 - source.1)
      (min (destination.2.1 - source.2.1) (destination.2.2 - source.2.2))

/-- `shortest_mesh_path` from src/rig/geometry.py:
`minimise_xyz(d - s for s, d in zip(source, destination))`. -/
def shortest_mesh_path (source destination : Int × Int × Int) : Int × Int × Int :=
  minimise_xyz (destination.1 - source.1, destination.2.1 - source.2.1,
    destination.2.2 - source.2.2)

/-- `shortest_torus_path_length` from src/rig/geometry.py:
`x, y, z = d - s; x, y = x - z, y - z; x %= w; y %= h;
return min(max(x, y), w - x + y, x + h - y, max(w - x, h - y))`.
(The two `x` / `y` intermediates are inlined; Python `%` with a positive
modulus agrees with `Int.emod`.) -/
def shortest_torus_path_length (source destination : Int × Int × Int)
    (width height : Int) : Int :=
  min
    (min
      (max ((destination.1 - source.1 - (destination.2.2 - source.2.2)) % width)
        ((destination.2.1 - source.2.1 - (destination.2.2 - source.2.2)) % height))
      (width - (destination.1 - source.1 - (destination.2.2 - source.2.2)) % width +
        (destination.2.1 - source.2.1 - (destination.2.2 - source.2.2)) % height))
    (min
      ((destination.1 - source.1 - (destination.2.2 - source.2.2)) % width + height -
        (destination.2.1 - source.2.1 - (destination.2.2 - source.2.2)) % height)
      (max (width - (destination.1 - source.1 - (destination.2.2 - source.2.2)) % width)
        (height - (destination.2.1 - source.2.1 - (destination.2.2 - source.2.2)) % height)))

/-- Wrap one coordinate component, as in `longest_dimension_first` from
src/rig/place_and_route/route/utils.py: `x %= width` when a width is given;
`width=None` leaves the coordinate unchanged. -/
def wrap1 (w : Option Int) (a : Int) : Int :=
  match w with
  | none => a
  | some m => a % m

/-- One hop of `longest_dimension_first` along dimension `d` with sign `s`:
dimension 0 does `x += sign`, dimension 1 does `y += sign`, dimension 2 does
`x -= sign; y -= sign`. -/
def ldf_move (d : Nat) (s : Int) (p : Int × Int) : Int × Int :=
  if d = 0 then (p.1 + s, p.2)
  else if d = 1 then (p.1, p.2 + s)
  else (p.1 - s, p.2 - s)

/-- The inner `for _ in range(abs(magnitude))` loop of
`longest_dimension_first`: `n` hops along dimension `d` with sign `s`
starting from `p`, wrapping both coordinates after every hop and yielding
every position reached. -/
def ldf_hops (d : Nat) (s : Int) (w h : Option Int) : Nat → Int × Int → List (Int × Int)
  | 0, _ => []
  | n + 1, p =>
    (wrap1 w (ldf_move d s p).1, wrap1 h (ldf_move d s p).2) ::
      ldf_hops d s w h n (wrap1 w (ldf_move d s p).1, wrap1 h (ldf_move d s p).2)

/-- `longest_dimension_first(vector, start, width, height)` from
src/rig/place_and_route/route/utils.py.  The outcome of the randomly
tie-broken `sorted(enumerate(vector), key=abs(..)+random(), reverse=True)`
is supplied as the explicit list `dims` of `(dimension, magnitude)` pairs;
a zero magnitude `break`s out of the outer loop.  Returns the `(x, y)`
position yielded after every hop, in order. -/
def longest_dimension_first (dims : List (Nat × Int)) (start : Int × Int)
    (w h : Option Int) : List (Int × Int) :=
  match dims with
  | [] => []
  | (d, m) :: rest =>
    if m = 0 then []
    else
      ldf_hops d (if 0 < m then 1 else -1) w h m.natAbs start ++
        longest_dimension_first rest
          ((ldf_hops d (if 0 < m then 1 else -1) w h m.natAbs start).getLastD start) w h

/-- `enumerate(vector)`: the list `[(0, x), (1, y), (2, z)]`. -/
def enum_dims (v : Int × Int × Int) : List (Nat × Int) :=
  [(0, v.1), (1, v.2.1), (2, v.2.2)]

/-- Descending order on `(dimension, magnitude)` pairs by absolute
magnitude: the sortedness produced by
`sorted(..., key=abs(magnitude)+random(), reverse=True)`. -/
def dims_sorted (dims : List (Nat × Int)) : Prop :=
  List.Pairwise (fun p q : Nat × Int => q.2.natAbs ≤ p.2.natAbs) dims

/-- Stable insertion of `x` into a key-sorted list: `x` goes after every
element whose key is less than or equal to its own (the placement Python's
stable `sorted` gives). -/
def insert_sorted {α : Type} (key : α → Int) (x : α) : List α → List α
  | [] => [x]
  | y :: rest => if key y ≤ key x then y :: insert_sorted key x rest else x :: y :: rest

/-- Stable sort by an integer key: the model of Python's `sorted`. -/
def sort_by_key {α : Type} (key : α → Int) (l : List α) : List α :=
  l.foldl (fun acc x => insert_sorted key x acc) []

/-- One realisable outcome of the random tie-break: a stable sort of the
enumerated dimensions by descending absolute magnitude. -/
def sort_dims (v : Int × Int × Int) : List (Nat × Int) :=
  sort_by_key (fun p => -(p.2.natAbs : Int)) (enum_dims v)

/-- Total number of hops contributed by a dimension list. -/
def dims_weight (dims : List (Nat × Int)) : Nat :=
  (dims.map (fun p => p.2.natAbs)).sum

/-- Net `(x, y)` displacement of fully traversing one dimension:
dimension 0 moves `(m, 0)`, dimension 1 moves `(0, m)`, dimension 2 moves
`(-m, -m)`. -/
def dim_delta (d : Nat) (m : Int) : Int × Int :=
  if d = 0 then (m, 0) else if d = 1 then (0, m) else (-m, -m)

/-- Net `(x, y)` displacement of a whole dimension list. -/
def dims_shift (dims : List (Nat × Int)) : Int × Int :=
  (dims.map (fun p => dim_delta p.1 p.2)).sum

/-- The six ring-walk directions of `concentric_hexagons` from
src/rig/geometry.py: `[(1, 1), (0, 1), (-1, 0), (-1, -1), (0, -1), (1, 0)]`. -/
def hex_dirs : List (Int × Int) :=
  [(1, 1), (0, 1), (-1, 0), (-1, -1), (0, -1), (1, 0)]

/-- The inner `for _ in range(r): yield (x, y); x += dx; y += dy` loop of
`concentric_hexagons`: yields `n` positions walking direction `d` from `p`,
and returns the final position. -/
def hex_seg (d : Int × Int) : Nat → Int × Int → List (Int × Int) × (Int × Int)
  | 0, p => ([], p)
  | n + 1, p =>
    (p :: (hex_seg d n (p.1 + d.1, p.2 + d.2)).1, (hex_seg d n (p.1 + d.1, p.2 + d.2)).2)

/-- One ring of `concentric_hexagons`: walk the six directions in order,
`r` steps each, from `p`; yields the ring positions and returns the final
position. -/
def hex_ring (r : Nat) (p : Int × Int) : List (Int × Int) × (Int × Int) :=
  hex_dirs.foldl
    (fun acc d => (acc.1 ++ (hex_seg d r acc.2).1, (hex_seg d r acc.2).2)) ([], p)

/-- The outer `for r in range(1, radius + 1)` loop of `concentric_hexagons`:
each iteration does `y -= 1` and then walks the ring of the current radius;
`count` iterations remain and the current radius is `r`. -/
def hex_rings : Nat → Nat → Int × Int → List (Int × Int)
  | _, 0, _ => []
  | r, count + 1, p =>
    (hex_ring r (p.1, p.2 - 1)).1 ++
      hex_rings (r + 1) count (hex_ring r (p.1, p.2 - 1)).2

/-- `concentric_hexagons(radius, start)` from src/rig/geometry.py (the
same generator is defined verbatim in src/rig/place_and_route/route/ner.py):
yields `start`, then for each `r = 1..radius` walks the hexagonal ring of
radius `r`. -/
def concentric_hexagons (radius : Nat) (start : Int × Int) : List (Int × Int) :=
  start :: hex_rings 1 radius start

/-- Closed form of the ring walk: point `i` of segment `j` of the ring of
radius `k` centred on `c` (proof auxiliary). -/
def ring_pt (c : Int × Int) (k : Nat) (j i : Nat) : Int × Int :=
  if j = 0 then (c.1 + i, c.2 + i - k)
  else if j = 1 then (c.1 + k, c.2 + i)
  else if j = 2 then (c.1 + k - i, c.2 + k)
  else if j = 3 then (c.1 - i, c.2 + k - i)
  else if j = 4 then (c.1 - k, c.2 - i)
  else (c.1 - k + i, c.2 - k)

/-- All points of the ring of radius `k` centred on `c`, in walk order
(proof auxiliary). -/
def ring_full (c : Int × Int) (k : Nat) : List (Int × Int) :=
  (List.range k).map (ring_pt c k 0) ++ (List.range k).map (ring_pt c k 1) ++
    (List.range k).map (ring_pt c k 2) ++ (List.range k).map (ring_pt c k 3) ++
    (List.range k).map (ring_pt c k 4) ++ (List.range k).map (ring_pt c k 5)

/-- Closed form of the ring loop: the rings of radii `r' + 1` up to
`r' + count` centred on `c`, concatenated (proof auxiliary). -/
def rings_from (c : Int × Int) : Nat → Nat → List (Int × Int)
  | _, 0 => []
  | r', count + 1 => ring_full c (r' + 1) ++ rings_from c (r' + 1) count

/-- Hexagonal distance of `p` from `c`: the range of the offset vector in
three-axis form (proof auxiliary). -/
def hex_range (c p : Int × Int) : Int :=
  max (p.1 - c.1) (max (p.2 - c.2) 0) - min (p.1 - c.1) (min (p.2 - c.2) 0)

/-- The `Links` enumeration from src/rig/machine.py (six hexagonal link
directions). -/
inductive Links where
  | east
  | north_east
  | north
  | west
  | south_west
  | south
  deriving DecidableEq

/-- First-match lookup in an association list: the model of Python
`dict.get` (dict keys are unique in Python; here earlier entries shadow
later ones). -/
def dict_get {κ ν : Type} [DecidableEq κ] : List (κ × ν) → κ → Option ν
  | [], _ => none
  | e :: rest, k => if e.1 = k then some e.2 else dict_get rest k

/-- The `Machine` data structure from src/rig/machine.py.  Resource maps
are opaque values of type `ρ` (the value of `chip_resources` and the values
of `chip_resource_exceptions`); the exception dict is an association list
with first-match lookup, and the dead-chip / dead-link sets are lists. -/
structure Machine (ρ : Type) where
  width : Int
  height : Int
  chip_resources : ρ
  chip_resource_exceptions : List ((Int × Int) × ρ)
  dead_chips : List (Int × Int)
  dead_links : List (Int × Int × Links)

/-- `Machine.__contains__` for an `(x, y)` pair:
`0 <= x < width and 0 <= y < height and (x, y) not in dead_chips`. -/
def Machine.contains_chip {ρ : Type} (m : Machine ρ) (xy : Int × Int) : Bool :=
  decide (0 ≤ xy.1) && decide (xy.1 < m.width) && decide (0 ≤ xy.2) &&
    decide (xy.2 < m.height) && !(decide (xy ∈ m.dead_chips))

/-- `Machine.__contains__` for an `(x, y, link)` triple:
`(x, y) in self and (x, y, link) not in dead_links`. -/
def Machine.contains_link {ρ : Type} (m : Machine ρ) (xyl : Int × Int × Links) : Bool :=
  m.contains_chip (xyl.1, xyl.2.1) && !(decide (xyl ∈ m.dead_links))

/-- `Machine.__getitem__` from src/rig/machine.py: raises `IndexError`
(modelled as `none`) when `xy not in self`; otherwise returns
`chip_resource_exceptions.get(xy, chip_resources)`. -/
def Machine.getitem {ρ : Type} (m : Machine ρ) (xy : Int × Int) : Option ρ :=
  if m.contains_chip xy then
    some ((dict_get m.chip_resource_exceptions xy).getD m.chip_resources)
  else none

/-- `Machine.__setitem__` from src/rig/machine.py: raises `IndexError`
(modelled as `none`) when `xy not in self`; otherwise stores `resources` in
`chip_resource_exceptions[xy]` (a dict write, modelled by a shadowing
prepend). -/
def Machine.setitem {ρ : Type} (m : Machine ρ) (xy : Int × Int) (resources : ρ) :
    Option (Machine ρ) :=
  if m.contains_chip xy then
    some { m with chip_resource_exceptions := (xy, resources) :: m.chip_resource_exceptions }
  else none

/-- State of `ner_net`'s `route` dictionary
(src/rig/place_and_route/route/ner.py).  `RoutingTree` objects are
identified by creation order: `nodes` maps each object id to its chip,
`route` is the dict from chip coordinates to object ids, and `edges`
records the `last_node.children.add(this_node)` calls as
`(parent id, child id)` pairs with set semantics (added once). -/
structure NerState where
  nextId : Nat
  nodes : List (Nat × (Int × Int))
  route : List ((Int × Int) × Nat)
  edges : List (Nat × Nat)
  deriving DecidableEq

/-- One step of the LDF walk inside `ner_net`: `this_node = route.get((x,
y))`, created and registered when absent; then
`last_node.children.add(this_node)`.  Returns the new state and
`this_node`. -/
def ner_walk_step (st : NerState) (last : Nat) (c : Int × Int) : NerState × Nat :=
  match dict_get st.route c with
  | some i =>
    ({ st with
        edges := if (last, i) ∈ st.edges then st.edges else st.edges ++ [(last, i)] }, i)
  | none =>
    ({ nextId := st.nextId + 1,
       nodes := st.nodes ++ [(st.nextId, c)],
       route := (c, st.nextId) :: st.route,
       edges := if (last, st.nextId) ∈ st.edges then st.edges
         else st.edges ++ [(last, st.nextId)] }, st.nextId)

/-- The `for x, y in longest_dimension_first(...)` loop of `ner_net`. -/
def ner_walk (st : NerState) (last : Nat) : List (Int × Int) → NerState
  | [] => st
  | c :: rest => ner_walk (ner_walk_step st last c).1 (ner_walk_step st last c).2 rest

/-- The concentric-ring neighbour search of `ner_net`: the first already
routed chip (wrapped when `wrap_around` is set) that is not the
destination. -/
def ner_neighbour (st : NerState) (radius : Nat) (destination : Int × Int)
    (width height : Int) (wrap_around : Bool) : Option (Int × Int) :=
  ((concentric_hexagons radius destination).map
      (fun p => if wrap_around then (p.1 % width, p.2 % height) else p)).find?
    (fun p => (dict_get st.route p).isSome && decide (p ≠ destination))

/-- Routing of a single destination inside `ner_net`: find a neighbour
(falling back on the source), take the shortest mesh vector (or the
supplied `shortest_torus_path` result when wrapping), and walk the LDF
path from the neighbour.  `pick` supplies the randomly tie-broken
dimension order of each `longest_dimension_first` call and `torus_pick`
the randomised `shortest_torus_path` results. -/
def ner_dest (pick : Int × Int → Int × Int × Int → List (Nat × Int))
    (torus_pick : Int × Int → Int × Int → Int × Int × Int)
    (source : Int × Int) (width height : Int) (wrap_around : Bool) (radius : Nat)
    (st : NerState) (destination : Int × Int) : NerState :=
  ner_walk st
    ((dict_get st.route
        ((ner_neighbour st radius destination width height wrap_around).getD source)).getD 0)
    (longest_dimension_first
      (pick destination
        (if wrap_around then
          torus_pick ((ner_neighbour st radius destination width height wrap_around).getD source)
            destination
        else
          shortest_mesh_path
            (to_xyz ((ner_neighbour st radius destination width height wrap_around).getD source))
            (to_xyz destination)))
      ((ner_neighbour st radius destination width height wrap_around).getD source)
      (some width) (some height))

/-- The sort key of `ner_net`'s `sorted(destinations, key=...)`: shortest
mesh or torus path length from the source. -/
def ner_key (source : Int × Int) (width height : Int) (wrap_around : Bool)
    (destination : Int × Int) : Int :=
  if wrap_around then
    shortest_torus_path_length (to_xyz source) (to_xyz destination) width height
  else shortest_mesh_path_length (to_xyz source) (to_xyz destination)

/-- `ner_net` from src/rig/place_and_route/route/ner.py.  `destinations` is
the iteration order of the Python destination set (the stable sort makes
the result independent of it when all keys are distinct); randomness is
supplied through `pick` and `torus_pick`.  The returned state carries the
`route` dict; Python returns `(route[source], route)`. -/
def ner_net (pick : Int × Int → Int × Int × Int → List (Nat × Int))
    (torus_pick : Int × Int → Int × Int → Int × Int × Int)
    (source : Int × Int) (destinations : List (Int × Int)) (width height : Int)
    (wrap_around : Bool) (radius : Nat) : NerState :=
  (sort_by_key (ner_key source width height wrap_around) destinations).foldl
    (ner_dest pick torus_pick source width height wrap_around radius)
    ⟨1, [(0, source)], [(source, 0)], []⟩

/-- `ner_net` applied with its Python default arguments
(`wrap_around=False`, `radius=10`). -/
def ner_net_with_defaults (pick : Int × Int → Int × Int × Int → List (Nat × Int))
    (torus_pick : Int × Int → Int × Int → Int × Int × Int)
    (source : Int × Int) (destinations : List (Int × Int))
    (width height : Int) : NerState :=
  ner_net pick torus_pick source destinations width height false 10

mutual

/-- Modelled from the spec: `RoutingTree`
(src/rig/place_and_route/routing_tree.py is not included under src/).
Following its use in src/rig/place_and_route/route/ner.py, a node holds a
chip coordinate and a set of child nodes (no vertices or links); the child
set is modelled as the mutually inductive list `RTChildren`. -/
inductive RoutingTree where
  | mk (chip : Int × Int) (children : RTChildren)

/-- A list of routing tree nodes (the `children` set of a node). -/
inductive RTChildren where
  | nil
  | cons (t : RoutingTree) (ts : RTChildren)

end

/-- The chip coordinate of a routing tree node. -/
def RoutingTree.chip : RoutingTree → Int × Int
  | .mk c _ => c

/-- The children of a routing tree node, as an ordinary list. -/
def RTChildren.toList : RTChildren → List RoutingTree
  | .nil => []
  | .cons t ts => t :: RTChildren.toList ts

mutual

/-- Number of nodes of a routing tree (the BFS fuel bound). -/
def RoutingTree.size : RoutingTree → Nat
  | .mk _ children => 1 + RTChildren.size children

/-- Total number of nodes below a child list. -/
def RTChildren.size : RTChildren → Nat
  | .nil => 0
  | .cons t ts => RoutingTree.size t + RTChildren.size ts

end

/-- Error outcomes of the tree repair pipeline:
`MachineHasDisconnectedSubregion` from place_and_route exceptions, the
`AssertionError` raised by a failed Python `assert`, and exhaustion of the
loop fuel (never reached: the fuel passed in exceeds the BFS queue work). -/
inductive RouteErr where
  | assertionError
  | machineHasDisconnectedSubregion
  | fuelExhausted
  deriving DecidableEq

/-- State of `copy_and_disconnect_tree`'s BFS
(src/rig/place_and_route/route/ner.py): the next fresh object id, the id
of `new_root` once set, the copied `new_lookup` dict, the copied child
links (as `(parent id, child id)` pairs) and the recorded `broken_links`. -/
structure CadState where
  nextId : Nat
  new_root : Option Nat
  new_lookup : List ((Int × Int) × Nat)
  edges : List (Nat × Nat)
  broken_links : List ((Int × Int) × (Int × Int))
  deriving DecidableEq

/-- `links_between(a, b, machine)` from
src/rig/place_and_route/route/utils.py: the working links taking chip `a`
to chip `b` (wrapping at the machine dimensions), as a list. -/
def links_between {ρ : Type} (a b : Int × Int) (machine : Machine ρ) : List Links :=
  ([(Links.east, ((1 : Int), (0 : Int))), (Links.north_east, (1, 1)), (Links.north, (0, 1)),
      (Links.west, (-1, 0)), (Links.south_west, (-1, -1)), (Links.south, (0, -1))].filter
    (fun ld => decide ((a.1 + ld.2.1) % machine.width = b.1) &&
      decide ((a.2 + ld.2.2) % machine.height = b.2) &&
      machine.contains_link (a.1, a.2, ld.1))).map Prod.fst

/-- The BFS loop of `copy_and_disconnect_tree`
(src/rig/place_and_route/route/ner.py).  A queue entry is a
`(new_parent, old_node)` pair, the parent recorded as its object id and
chip; `fuel` bounds the number of iterations (the caller passes more than
the total number of tree nodes, so it is never exhausted).  A dead chip
with no parent triggers the `assert new_parent is not None` failure. -/
def cad_loop {ρ : Type} (machine : Machine ρ) :
    Nat → List (Option (Nat × (Int × Int)) × RoutingTree) → CadState →
      Except RouteErr CadState
  | 0, queue, st =>
    match queue with
    | [] => .ok st
    | _ :: _ => .error .fuelExhausted
  | _ + 1, [], st => .ok st
  | fuel + 1, (parent, RoutingTree.mk chip children) :: rest, st =>
    if machine.contains_chip chip then
      cad_loop machine fuel (rest ++ children.toList.map (fun c => (some (st.nextId, chip), c)))
        (match parent with
          | none =>
            { st with
                nextId := st.nextId + 1,
                new_root := some st.nextId,
                new_lookup := (chip, st.nextId) :: st.new_lookup }
          | some (pid, pchip) =>
            if links_between pchip chip machine ≠ [] then
              { st with
                  nextId := st.nextId + 1,
                  new_lookup := (chip, st.nextId) :: st.new_lookup,
                  edges := st.edges ++ [(pid, st.nextId)] }
            else
              { st with
                  nextId := st.nextId + 1,
                  new_lookup := (chip, st.nextId) :: st.new_lookup,
                  broken_links := if (pchip, chip) ∈ st.broken_links then st.broken_links
                    else st.broken_links ++ [(pchip, chip)] })
    else
      match parent with
      | none => .error .assertionError
      | some (pid, pchip) =>
        cad_loop machine fuel (rest ++ children.toList.map (fun c => (some (pid, pchip), c))) st

/-- `copy_and_disconnect_tree(root, machine)` from
src/rig/place_and_route/route/ner.py: BFS-copy of a routing tree that
drops nodes on dead chips (re-parenting their children) and records broken
links.  Python returns `(new_root, new_lookup, broken_links)`; the failed
`assert` for a net sourced from a dead chip is the `assertionError`
outcome. -/
def copy_and_disconnect_tree {ρ : Type} (root : RoutingTree) (machine : Machine ρ) :
    Except RouteErr CadState :=
  cad_loop machine (root.size + 1) [(none, root)] ⟨0, none, [], [], []⟩

/-- Modelled from the spec: pure longest-dimension-first routing from the
source, the algorithm `ner_net` is said to degenerate to when `radius=0`:
every destination is routed by an LDF path of the shortest vector from the
source, with no neighbour search. -/
def pure_source_ldf (pick : Int × Int → Int × Int × Int → List (Nat × Int))
    (torus_pick : Int × Int → Int × Int → Int × Int × Int)
    (source : Int × Int) (destinations : List (Int × Int)) (width height : Int)
    (wrap_around : Bool) : NerState :=
  (sort_by_key (ner_key source width height wrap_around) destinations).foldl
    (fun st destination =>
      ner_walk st ((dict_get st.route source).getD 0)
        (longest_dimension_first
          (pick destination
            (if wrap_around then torus_pick source destination
            else shortest_mesh_path (to_xyz source) (to_xyz destination)))
          source (some width) (some height)))
    ⟨1, [(0, source)], [(source, 0)], []⟩

end Rig

namespace Rig

theorem emod_le_self_of_nonneg {a w : Int} (hw : 0 < w) (ha : 0 ≤ a) : a % w ≤ a := by
  have hd : a % w = a - w * (a / w) := by rw [Int.emod_def]
  have hq : 0 ≤ a / w := Int.ediv_nonneg ha hw.le
  have hm : 0 ≤ w * (a / w) := mul_nonneg hw.le hq
  linarith

theorem emod_sub_bound_of_neg {a w : Int} (hw : 0 < w) (ha : a < 0) : w - a % w ≤ -a := by
  have hd : a % w = a - w * (a / w) := by rw [Int.emod_def]
  have hq : a / w < 0 := Int.ediv_neg' ha hw
  have hq1 : a / w ≤ -1 := by omega
  have hm : w * (a / w) ≤ w * (-1) := mul_le_mul_of_nonneg_left hq1 hw.le
  linarith

/-- Arithmetic core of the torus-versus-mesh comparison: for any integer
displacements `a`, `b` (already reduced to two-axis form) one of the four
torus candidates is bounded by the mesh range `max(a,b,0) - min(a,b,0)`. -/
theorem torus_le_mesh_core (a b w h : Int) (hw : 0 < w) (hh : 0 < h) :
    min (min (max (a % w) (b % h)) (w - a % w + b % h))
      (min (a % w + h - b % h) (max (w - a % w) (h - b % h))) ≤
      max a (max b 0) - min a (min b 0) := by
  have hx0 : 0 ≤ a % w := Int.emod_nonneg a hw.ne'
  have hy0 : 0 ≤ b % h := Int.emod_nonneg b hh.ne'
  rcases le_or_lt 0 a with ha | ha <;> rcases le_or_lt 0 b with hb | hb
  · have h1 := emod_le_self_of_nonneg hw ha
    have h2 := emod_le_self_of_nonneg hh hb
    omega
  · have h1 := emod_le_self_of_nonneg hw ha
    have h2 := emod_sub_bound_of_neg hh hb
    omega
  · have h1 := emod_sub_bound_of_neg hw ha
    have h2 := emod_le_self_of_nonneg hh hb
    omega
  · have h1 := emod_sub_bound_of_neg hw ha
    have h2 := emod_sub_bound_of_neg hh hb
    omega

/-- Claim C1: for every pair of three-axis coordinates `s`, `d` and all
positive `width`, `height`, the torus shortest-path length is at most the
mesh shortest-path length. -/
theorem shortest_torus_le_mesh (s d : Int × Int × Int) (w h : Int)
    (hw : 0 < w) (hh : 0 < h) :
    shortest_torus_path_length s d w h ≤ shortest_mesh_path_length s d := by
  unfold shortest_torus_path_length shortest_mesh_path_length
  have hcore := torus_le_mesh_core (d.1 - s.1 - (d.2.2 - s.2.2))
    (d.2.1 - s.2.1 - (d.2.2 - s.2.2)) w h hw hh
  omega

/-- Witness for claim C1 at `s = (0,0,0)`, `d = (7,0,0)`, `W = H = 8`. -/
theorem shortest_torus_le_mesh_witness :
    (0 : Int) < 8 ∧
      shortest_torus_path_length (0, 0, 0) (7, 0, 0) 8 8 ≤
        shortest_mesh_path_length (0, 0, 0) (7, 0, 0) :=
  ⟨by decide, shortest_torus_le_mesh (0, 0, 0) (7, 0, 0) 8 8 (by decide) (by decide)⟩

/-- Claim C4: `minimise_xyz` subtracts `m = max(min(x,y), min(max(x,y), z))`
from every component; the result has at most two non-zero components and any
two non-zero components have opposite signs. -/
theorem minimise_xyz_spec (x y z : Int) :
    minimise_xyz (x, y, z) =
        (x - max (min x y) (min (max x y) z), y - max (min x y) (min (max x y) z),
          z - max (min x y) (min (max x y) z)) ∧
      ((minimise_xyz (x, y, z)).1 = 0 ∨ (minimise_xyz (x, y, z)).2.1 = 0 ∨
        (minimise_xyz (x, y, z)).2.2 = 0) ∧
      ((minimise_xyz (x, y, z)).1 ≠ 0 → (minimise_xyz (x, y, z)).2.1 ≠ 0 →
        ((minimise_xyz (x, y, z)).1 < 0 ∧ 0 < (minimise_xyz (x, y, z)).2.1 ∨
          0 < (minimise_xyz (x, y, z)).1 ∧ (minimise_xyz (x, y, z)).2.1 < 0)) ∧
      ((minimise_xyz (x, y, z)).1 ≠ 0 → (minimise_xyz (x, y, z)).2.2 ≠ 0 →
        ((minimise_xyz (x, y, z)).1 < 0 ∧ 0 < (minimise_xyz (x, y, z)).2.2 ∨
          0 < (minimise_xyz (x, y, z)).1 ∧ (minimise_xyz (x, y, z)).2.2 < 0)) ∧
      ((minimise_xyz (x, y, z)).2.1 ≠ 0 → (minimise_xyz (x, y, z)).2.2 ≠ 0 →
        ((minimise_xyz (x, y, z)).2.1 < 0 ∧ 0 < (minimise_xyz (x, y, z)).2.2 ∨
          0 < (minimise_xyz (x, y, z)).2.1 ∧ (minimise_xyz (x, y, z)).2.2 < 0)) := by
  refine ⟨rfl, ?_, ?_, ?_, ?_⟩ <;> simp only [minimise_xyz] <;> omega

/-- Witness for claim C4 at `(x, y, z) = (1, -2, 5)`: the minimised triple is
`(0, -3, 4)` and its two non-zero components have opposite signs. -/
theorem minimise_xyz_spec_witness :
    minimise_xyz (1, -2, 5) = (0, -3, 4) ∧
      ((minimise_xyz (1, -2, 5)).2.1 < 0 ∧ 0 < (minimise_xyz (1, -2, 5)).2.2 ∨
        0 < (minimise_xyz (1, -2, 5)).2.1 ∧ (minimise_xyz (1, -2, 5)).2.2 < 0) :=
  ⟨by decide, (minimise_xyz_spec 1 (-2) 5).2.2.2.2 (by decide) (by decide)⟩

theorem wrap1_add (w : Option Int) (a b : Int) :
    wrap1 w (wrap1 w a + b) = wrap1 w (a + b) := by
  cases w with
  | none => rfl
  | some m => simp [wrap1, Int.emod_add_emod]

theorem ldf_move_eq (d : Nat) (s : Int) (p : Int × Int) :
    ldf_move d s p = (p.1 + (dim_delta d s).1, p.2 + (dim_delta d s).2) := by
  unfold ldf_move dim_delta
  split_ifs <;> simp [sub_eq_add_neg]

theorem ldf_hops_closed (d : Nat) (s : Int) (w h : Option Int) :
    ∀ (n : Nat) (p : Int × Int),
      ldf_hops d s w h n p =
        (List.range n).map fun i : Nat =>
          (wrap1 w (p.1 + ((i : Int) + 1) * (dim_delta d s).1),
            wrap1 h (p.2 + ((i : Int) + 1) * (dim_delta d s).2)) := by
  intro n
  induction n with
  | zero => intro p; rfl
  | succ n ih =>
    intro p
    rw [List.range_succ_eq_map, List.map_cons, List.map_map]
    rw [ldf_hops, ldf_move_eq]
    congr 1
    · simp only [Nat.cast_zero, zero_add, one_mul]
    · rw [ih]
      refine List.map_congr_left fun i _ => ?_
      simp only [Function.comp_apply, Prod.mk.injEq]
      constructor
      · rw [wrap1_add w (p.1 + (dim_delta d s).1)]
        congr 1
        push_cast
        ring
      · rw [wrap1_add h (p.2 + (dim_delta d s).2)]
        congr 1
        push_cast
        ring

theorem ldf_hops_length (d : Nat) (s : Int) (w h : Option Int) (n : Nat) (p : Int × Int) :
    (ldf_hops d s w h n p).length = n := by
  rw [ldf_hops_closed]
  simp

theorem ldf_hops_getLastD (d : Nat) (s : Int) (w h : Option Int) :
    ∀ (n : Nat), n ≠ 0 → ∀ (p q : Int × Int),
      (ldf_hops d s w h n p).getLastD q =
        (wrap1 w (p.1 + (n : Int) * (dim_delta d s).1),
          wrap1 h (p.2 + (n : Int) * (dim_delta d s).2)) := by
  intro n
  induction n with
  | zero => intro hn; exact absurd rfl hn
  | succ n ih =>
    intro _ p q
    by_cases hn0 : n = 0
    · subst hn0
      rw [ldf_hops, ldf_move_eq]
      simp [ldf_hops, List.getLastD]
    · rw [ldf_hops, ldf_move_eq, List.getLastD_cons, ih hn0]
      simp only [Prod.mk.injEq]
      constructor
      · rw [wrap1_add w (p.1 + (dim_delta d s).1)]
        congr 1
        push_cast
        ring
      · rw [wrap1_add h (p.2 + (dim_delta d s).2)]
        congr 1
        push_cast
        ring

theorem natAbs_mul_delta (d : Nat) (m : Int) :
    ((m.natAbs : Int) * (dim_delta d (if 0 < m then 1 else -1)).1,
      (m.natAbs : Int) * (dim_delta d (if 0 < m then 1 else -1)).2) = dim_delta d m := by
  have habs : (m.natAbs : Int) * (if 0 < m then (1 : Int) else -1) = m := by
    by_cases hm : 0 < m
    · rw [if_pos hm, mul_one]
      omega
    · rw [if_neg hm, mul_neg_one]
      omega
  unfold dim_delta
  by_cases h0 : d = 0
  · rw [if_pos h0, if_pos h0]
    exact Prod.ext_iff.mpr ⟨habs, mul_zero _⟩
  · rw [if_neg h0, if_neg h0]
    by_cases h1 : d = 1
    · rw [if_pos h1, if_pos h1]
      exact Prod.ext_iff.mpr ⟨mul_zero _, habs⟩
    · rw [if_neg h1, if_neg h1]
      refine Prod.ext_iff.mpr ⟨?_, ?_⟩ <;>
        · show (m.natAbs : Int) * -(if 0 < m then (1 : Int) else -1) = -m
          rw [mul_neg, habs]

theorem dims_shift_cons (d : Nat) (m : Int) (rest : List (Nat × Int)) :
    dims_shift ((d, m) :: rest) =
      ((dim_delta d m).1 + (dims_shift rest).1, (dim_delta d m).2 + (dims_shift rest).2) := by
  simp [dims_shift, Prod.ext_iff]

theorem dims_shift_of_zeros (dims : List (Nat × Int))
    (hz : ∀ q ∈ dims, (q : Nat × Int).2 = 0) : dims_shift dims = (0, 0) := by
  induction dims with
  | nil => rfl
  | cons a rest ih =>
    obtain ⟨d, m⟩ := a
    have hm : m = 0 := hz (d, m) (List.mem_cons_self _ _)
    subst hm
    rw [dims_shift_cons, ih fun q hq => hz q (List.mem_cons_of_mem _ hq)]
    unfold dim_delta
    split_ifs <;> simp

theorem dims_weight_of_zeros (dims : List (Nat × Int))
    (hz : ∀ q ∈ dims, (q : Nat × Int).2 = 0) : dims_weight dims = 0 := by
  unfold dims_weight
  refine List.sum_eq_zero fun x hx => ?_
  obtain ⟨q, hq, rfl⟩ := List.mem_map.mp hx
  rw [hz q hq]
  rfl

theorem sorted_head_zero (m : Int) (d : Nat) (rest : List (Nat × Int))
    (hs : dims_sorted ((d, m) :: rest)) (hm : m = 0) :
    ∀ q ∈ rest, (q : Nat × Int).2 = 0 := by
  intro q hq
  have := (List.pairwise_cons.mp hs).1 q hq
  subst hm
  simpa using Int.natAbs_eq_zero.mp (by omega)

theorem ldf_length (dims : List (Nat × Int)) (hs : dims_sorted dims) :
    ∀ (start : Int × Int) (w h : Option Int),
      (longest_dimension_first dims start w h).length = dims_weight dims := by
  induction dims with
  | nil => intro start w h; rfl
  | cons a rest ih =>
    intro start w h
    obtain ⟨d, m⟩ := a
    rw [longest_dimension_first]
    by_cases hm : m = 0
    · rw [if_pos hm]
      have hz := sorted_head_zero m d rest hs hm
      have h0 := dims_weight_of_zeros rest hz
      subst hm
      simp [dims_weight] at h0 ⊢
      omega
    · rw [if_neg hm, List.length_append, ldf_hops_length,
        ih (List.Pairwise.of_cons hs) _ w h]
      simp [dims_weight]

theorem ldf_eq_nil_iff (dims : List (Nat × Int)) (hs : dims_sorted dims)
    (start : Int × Int) (w h : Option Int) :
    longest_dimension_first dims start w h = [] ↔ dims_weight dims = 0 := by
  rw [← List.length_eq_zero, ldf_length dims hs]

theorem getLastD_append_right {α : Type} (l1 l2 : List α) (a b : α) (h2 : l2 ≠ []) :
    (l1 ++ l2).getLastD a = l2.getLastD b := by
  rw [List.getLastD_eq_getLast?, List.getLastD_eq_getLast?,
    List.getLast?_append_of_ne_nil _ h2]
  cases hl : l2.getLast? with
  | none => exact absurd (List.getLast?_eq_none_iff.mp hl) h2
  | some c => rfl

theorem ldf_getLastD (dims : List (Nat × Int)) (hs : dims_sorted dims) :
    ∀ (start : Int × Int) (w h : Option Int), dims_weight dims ≠ 0 →
      (longest_dimension_first dims start w h).getLastD start =
        (wrap1 w (start.1 + (dims_shift dims).1),
          wrap1 h (start.2 + (dims_shift dims).2)) := by
  induction dims with
  | nil => intro start w h hw; exact absurd rfl hw
  | cons a rest ih =>
    intro start w h hw
    obtain ⟨d, m⟩ := a
    by_cases hm : m = 0
    · exfalso
      refine hw ?_
      have hz := sorted_head_zero m d rest hs hm
      have h0 := dims_weight_of_zeros rest hz
      subst hm
      simpa [dims_weight] using h0
    · rw [longest_dimension_first, if_neg hm]
      have hmn : m.natAbs ≠ 0 := fun hc => hm (Int.natAbs_eq_zero.mp hc)
      have hhop := ldf_hops_getLastD d (if 0 < m then 1 else -1) w h m.natAbs hmn start
      by_cases hr : dims_weight rest = 0
      · have hnil : longest_dimension_first rest
            ((ldf_hops d (if 0 < m then 1 else -1) w h m.natAbs start).getLastD start) w h
            = [] :=
          (ldf_eq_nil_iff rest (List.Pairwise.of_cons hs) _ w h).mpr hr
        rw [hnil, List.append_nil, hhop start]
        have hrz : dims_shift rest = (0, 0) := by
          refine dims_shift_of_zeros rest fun q hq => ?_
          unfold dims_weight at hr
          have := List.sum_eq_zero_iff.mp hr (q.2.natAbs) (List.mem_map.mpr ⟨q, hq, rfl⟩)
          omega
        rw [dims_shift_cons, hrz]
        have hd := natAbs_mul_delta d m
        rw [Prod.mk.injEq] at hd
        rw [hd.1, hd.2]
        norm_num
      · have hnil : longest_dimension_first rest
            ((ldf_hops d (if 0 < m then 1 else -1) w h m.natAbs start).getLastD start) w h
            ≠ [] := by
          intro hc
          exact hr ((ldf_eq_nil_iff rest (List.Pairwise.of_cons hs) _ w h).mp hc)
        rw [getLastD_append_right _ _ start
          ((ldf_hops d (if 0 < m then 1 else -1) w h m.natAbs start).getLastD start) hnil,
          ih (List.Pairwise.of_cons hs) _ w h hr, hhop start]
        have hd := natAbs_mul_delta d m
        rw [Prod.mk.injEq] at hd
        rw [hd.1, hd.2]
        simp only [Prod.mk.injEq]
        rw [dims_shift_cons]
        constructor
        · rw [wrap1_add w (start.1 + (dim_delta d m).1)]
          congr 1
          ring
        · rw [wrap1_add h (start.2 + (dim_delta d m).2)]
          congr 1
          ring

/-- Claim C2: for every integer three-axis vector, start coordinate, wrap
parameters (present or absent) and every outcome of the random tie-break
(an arbitrary permutation of `enumerate(vector)` that is sorted by
descending magnitude), `longest_dimension_first` yields exactly
`|x| + |y| + |z|` steps and the position yielded by the final step is
`start + (x - z, y - z)`, wrapped when `W` / `H` are given. -/
theorem longest_dimension_first_spec (v : Int × Int × Int) (dims : List (Nat × Int))
    (start : Int × Int) (w h : Option Int)
    (hperm : dims.Perm (enum_dims v)) (hs : dims_sorted dims) :
    (longest_dimension_first dims start w h).length =
        v.1.natAbs + v.2.1.natAbs + v.2.2.natAbs ∧
      (¬(v.1 = 0 ∧ v.2.1 = 0 ∧ v.2.2 = 0) →
        (longest_dimension_first dims start w h).getLast? =
          some (wrap1 w (start.1 + (v.1 - v.2.2)), wrap1 h (start.2 + (v.2.1 - v.2.2)))) := by
  have hweq : dims_weight dims = v.1.natAbs + v.2.1.natAbs + v.2.2.natAbs := by
    unfold dims_weight
    rw [(hperm.map fun p => p.2.natAbs).sum_eq]
    simp [enum_dims]
    omega
  have hshift : dims_shift dims = (v.1 - v.2.2, v.2.1 - v.2.2) := by
    unfold dims_shift
    rw [(hperm.map fun p => dim_delta p.1 p.2).sum_eq]
    simp [enum_dims, dim_delta, Prod.ext_iff]
    constructor <;> ring
  refine ⟨by rw [ldf_length dims hs, hweq], fun hv => ?_⟩
  have hw0 : dims_weight dims ≠ 0 := by
    rw [hweq]
    omega
  have hne : longest_dimension_first dims start w h ≠ [] := fun hc =>
    hw0 ((ldf_eq_nil_iff dims hs start w h).mp hc)
  have hlast := ldf_getLastD dims hs start w h hw0
  rw [hshift, List.getLastD_eq_getLast?] at hlast
  cases hq : (longest_dimension_first dims start w h).getLast? with
  | none => exact absurd (List.getLast?_eq_none_iff.mp hq) hne
  | some a =>
    rw [hq] at hlast
    simp only [Option.getD_some] at hlast
    rw [hlast]

/-- Witness for claim C2 at `v = (2, -1, 0)`, `start = (5, 5)`,
`W = H = 4`, for the tie-break outcome `[(0, 2), (1, -1), (2, 0)]`. -/
theorem longest_dimension_first_spec_witness :
    (enum_dims (2, -1, 0)).Perm (enum_dims (2, -1, 0)) ∧
      dims_sorted (enum_dims (2, -1, 0)) ∧
      (longest_dimension_first (enum_dims (2, -1, 0)) (5, 5) (some 4) (some 4)).length = 3 ∧
      (longest_dimension_first (enum_dims (2, -1, 0)) (5, 5) (some 4) (some 4)).getLast? =
        some (3, 0) :=
  ⟨List.Perm.refl _, by unfold dims_sorted enum_dims; decide,
    (longest_dimension_first_spec (2, -1, 0) (enum_dims (2, -1, 0)) (5, 5) (some 4) (some 4)
      (List.Perm.refl _) (by unfold dims_sorted enum_dims; decide)).1,
    (longest_dimension_first_spec (2, -1, 0) (enum_dims (2, -1, 0)) (5, 5) (some 4) (some 4)
      (List.Perm.refl _) (by unfold dims_sorted enum_dims; decide)).2 (by decide)⟩

theorem minimise_xyz_weight (x y z : Int) :
    ((minimise_xyz (x, y, z)).1.natAbs : Int) + (minimise_xyz (x, y, z)).2.1.natAbs +
      (minimise_xyz (x, y, z)).2.2.natAbs =
      max x (max y z) - min x (min y z) := by
  simp only [minimise_xyz]
  omega

/-- Claim C3: any longest-dimension-first traversal of
`shortest_mesh_path(s, d)` takes exactly `shortest_mesh_path_length(s, d)`
hops: the sum of the absolute components of the minimised vector `d - s`
equals the range `max(d-s) - min(d-s)` of the unminimised vector. -/
theorem ldf_of_mesh_path_length (s d : Int × Int × Int) (dims : List (Nat × Int))
    (start : Int × Int) (w h : Option Int)
    (hperm : dims.Perm (enum_dims (shortest_mesh_path s d))) (hs : dims_sorted dims) :
    ((longest_dimension_first dims start w h).length : Int) =
      shortest_mesh_path_length s d := by
  rw [(longest_dimension_first_spec (shortest_mesh_path s d) dims start w h hperm hs).1]
  unfold shortest_mesh_path shortest_mesh_path_length
  rw [Nat.cast_add, Nat.cast_add]
  exact minimise_xyz_weight _ _ _

/-- Witness for claim C3 at `s = (0,0,0)`, `d = (3,1,0)` with the traversal
order `[(0, 2), (2, -1), (1, 0)]` of the minimised vector `(2, 0, -1)`. -/
theorem ldf_of_mesh_path_length_witness :
    [((0 : Nat), (2 : Int)), (2, -1), (1, 0)].Perm
        (enum_dims (shortest_mesh_path (0, 0, 0) (3, 1, 0))) ∧
      dims_sorted [((0 : Nat), (2 : Int)), (2, -1), (1, 0)] ∧
      ((longest_dimension_first [((0 : Nat), (2 : Int)), (2, -1), (1, 0)]
          (0, 0) none none).length : Int) =
        shortest_mesh_path_length (0, 0, 0) (3, 1, 0) :=
  ⟨by decide, by unfold dims_sorted; decide,
    ldf_of_mesh_path_length (0, 0, 0) (3, 1, 0) [((0 : Nat), (2 : Int)), (2, -1), (1, 0)]
      (0, 0) none none (by decide) (by unfold dims_sorted; decide)⟩

theorem contains_chip_iff {ρ : Type} (m : Machine ρ) (xy : Int × Int) :
    m.contains_chip xy = true ↔
      (0 ≤ xy.1 ∧ xy.1 < m.width ∧ 0 ≤ xy.2 ∧ xy.2 < m.height ∧ xy ∉ m.dead_chips) := by
  unfold Machine.contains_chip
  simp [and_assoc]

theorem dict_get_cons_ne {κ ν : Type} [DecidableEq κ] (k k' : κ) (v : ν)
    (l : List (κ × ν)) (hne : k' ≠ k) : dict_get ((k, v) :: l) k' = dict_get l k' := by
  have hc : ¬((k, v).1 = k') := fun hc => hne hc.symm
  simp only [dict_get, if_neg hc]

/-- Claim C8: `M[(x, y)]` fails (raises `IndexError`) exactly when `(x, y)`
is out of bounds or dead; otherwise it returns the exception entry for
`(x, y)` when one exists and `chip_resources` otherwise. -/
theorem machine_getitem_spec {ρ : Type} (m : Machine ρ) (xy : Int × Int) :
    (m.getitem xy = none ↔
        ¬(0 ≤ xy.1 ∧ xy.1 < m.width ∧ 0 ≤ xy.2 ∧ xy.2 < m.height) ∨ xy ∈ m.dead_chips) ∧
      (∀ r : ρ, dict_get m.chip_resource_exceptions xy = some r →
        m.getitem xy ≠ none → m.getitem xy = some r) ∧
      (dict_get m.chip_resource_exceptions xy = none →
        m.getitem xy ≠ none → m.getitem xy = some m.chip_resources) := by
  refine ⟨?_, ?_, ?_⟩
  · unfold Machine.getitem
    by_cases hcb : m.contains_chip xy = true
    · have hcp := (contains_chip_iff m xy).mp hcb
      rw [if_pos hcb]
      constructor
      · intro hn
        cases hn
      · rintro (hb | hd)
        · exact absurd ⟨hcp.1, hcp.2.1, hcp.2.2.1, hcp.2.2.2.1⟩ hb
        · exact absurd hd hcp.2.2.2.2
    · have hcp : ¬(0 ≤ xy.1 ∧ xy.1 < m.width ∧ 0 ≤ xy.2 ∧ xy.2 < m.height ∧
          xy ∉ m.dead_chips) := fun hp => hcb ((contains_chip_iff m xy).mpr hp)
      rw [if_neg hcb]
      constructor
      · intro _
        by_cases hd : xy ∈ m.dead_chips
        · exact Or.inr hd
        · refine Or.inl fun hb => ?_
          exact hcp ⟨hb.1, hb.2.1, hb.2.2.1, hb.2.2.2, hd⟩
      · intro _
        rfl
  · intro r hr hne
    unfold Machine.getitem at hne ⊢
    by_cases hcb : m.contains_chip xy = true
    · rw [if_pos hcb, hr]
      rfl
    · rw [if_neg hcb] at hne
      exact absurd rfl hne
  · intro hr hne
    unfold Machine.getitem at hne ⊢
    by_cases hcb : m.contains_chip xy = true
    · rw [if_pos hcb, hr]
      rfl
    · rw [if_neg hcb] at hne
      exact absurd rfl hne

/-- Witness for claim C8: a `3 x 1` machine with dead chip `(0, 0)` and a
resource exception on chip `(1, 0)`. -/
theorem machine_getitem_spec_witness :
    (Machine.mk 3 1 7 [(((1 : Int), (0 : Int)), 9)] [((0 : Int), (0 : Int))] []
        : Machine Nat).getitem (1, 0) = some 9 :=
  (machine_getitem_spec
      (Machine.mk 3 1 7 [(((1 : Int), (0 : Int)), 9)] [((0 : Int), (0 : Int))] []) (1, 0)).2.1
    9 (by decide) (by decide)

/-- Claim C10: after a successful resource override `M[(x, y)] = r`, reading
chip `(x, y)` gives exactly `r`, every other chip reads as before, and the
width, height, dead chips and dead links are unchanged. -/
theorem machine_setitem_spec {ρ : Type} (m : Machine ρ) (xy : Int × Int) (r : ρ)
    (m' : Machine ρ) (hset : m.setitem xy r = some m') :
    m'.getitem xy = some r ∧
      (∀ p : Int × Int, p ≠ xy → m'.getitem p = m.getitem p) ∧
      m'.width = m.width ∧ m'.height = m.height ∧
      m'.dead_chips = m.dead_chips ∧ m'.dead_links = m.dead_links := by
  unfold Machine.setitem at hset
  by_cases hcb : m.contains_chip xy = true
  · rw [if_pos hcb] at hset
    injection hset with hset
    subst hset
    refine ⟨?_, ?_, rfl, rfl, rfl, rfl⟩
    · have hcb' : ({ m with chip_resource_exceptions :=
          (xy, r) :: m.chip_resource_exceptions } : Machine ρ).contains_chip xy = true := hcb
      unfold Machine.getitem
      rw [if_pos hcb']
      unfold dict_get
      rw [if_pos rfl]
      rfl
    · intro p hp
      unfold Machine.getitem
      rw [dict_get_cons_ne xy p r m.chip_resource_exceptions hp]
      rfl
  · rw [if_neg hcb] at hset
    cases hset

/-- Witness for claim C10: overriding chip `(1, 0)` of a `3 x 1` machine
with dead chip `(0, 0)`; chip `(2, 0)` is unaffected. -/
theorem machine_setitem_spec_witness :
    (Machine.mk 3 1 7 [(((1 : Int), (0 : Int)), 5), (((1 : Int), (0 : Int)), 9)]
          [((0 : Int), (0 : Int))] [] : Machine Nat).getitem (1, 0) = some 5 ∧
      (Machine.mk 3 1 7 [(((1 : Int), (0 : Int)), 5), (((1 : Int), (0 : Int)), 9)]
          [((0 : Int), (0 : Int))] [] : Machine Nat).getitem (2, 0) =
        (Machine.mk 3 1 7 [(((1 : Int), (0 : Int)), 9)]
          [((0 : Int), (0 : Int))] [] : Machine Nat).getitem (2, 0) :=
  ⟨(machine_setitem_spec
      (Machine.mk 3 1 7 [(((1 : Int), (0 : Int)), 9)] [((0 : Int), (0 : Int))] [])
      (1, 0) 5 _ rfl).1,
    (machine_setitem_spec
      (Machine.mk 3 1 7 [(((1 : Int), (0 : Int)), 9)] [((0 : Int), (0 : Int))] [])
      (1, 0) 5 _ rfl).2.1 (2, 0) (by decide)⟩

theorem hex_seg_eq (d : Int × Int) : ∀ (n : Nat) (p : Int × Int),
    hex_seg d n p =
      ((List.range n).map (fun i : Nat => (p.1 + (i : Int) * d.1, p.2 + (i : Int) * d.2)),
        (p.1 + (n : Int) * d.1, p.2 + (n : Int) * d.2)) := by
  intro n
  induction n with
  | zero =>
    intro p
    simp [hex_seg]
  | succ n ih =>
    intro p
    rw [hex_seg, ih]
    rw [List.range_succ_eq_map, List.map_cons, List.map_map]
    refine Prod.ext_iff.mpr ⟨?_, ?_⟩
    · simp only []
      congr 1
      · simp only [Nat.cast_zero, zero_mul, add_zero]
      · refine List.map_congr_left fun i _ => ?_
        simp only [Function.comp_apply, Prod.mk.injEq]
        constructor <;> · push_cast; ring
    · simp only [Prod.mk.injEq]
      constructor <;> · push_cast; ring

theorem ring_pt_range (c : Int × Int) (k j i : Nat) (hj : j < 6) (hi : i < k) :
    hex_range c (ring_pt c k j i) = k := by
  interval_cases j <;> simp [ring_pt, hex_range] <;> omega

theorem ring_pt_inj (c : Int × Int) (k j i j' i' : Nat) (hj : j < 6) (hj' : j' < 6)
    (hi : i < k) (hi' : i' < k) (heq : ring_pt c k j i = ring_pt c k j' i') :
    j = j' ∧ i = i' := by
  interval_cases j <;> interval_cases j' <;>
    simp [ring_pt, Prod.ext_iff] at heq ⊢ <;> omega

theorem hex_ring_eq (c : Int × Int) (k : Nat) :
    hex_ring k (c.1, c.2 - k) = (ring_full c k, (c.1, c.2 - k)) := by
  unfold hex_ring hex_dirs ring_full
  simp only [List.foldl_cons, List.foldl_nil, hex_seg_eq, List.nil_append, List.append_assoc]
  refine Prod.ext_iff.mpr ⟨?_, ?_⟩
  · dsimp only
    congr 1
    · refine List.map_congr_left fun i _ => ?_
      simp [ring_pt, Prod.ext_iff]
      try omega
    congr 1
    · refine List.map_congr_left fun i _ => ?_
      simp [ring_pt, Prod.ext_iff]
      try omega
    congr 1
    · refine List.map_congr_left fun i _ => ?_
      simp [ring_pt, Prod.ext_iff]
      try omega
    congr 1
    · refine List.map_congr_left fun i _ => ?_
      simp [ring_pt, Prod.ext_iff]
      try omega
    congr 1
    · refine List.map_congr_left fun i _ => ?_
      simp [ring_pt, Prod.ext_iff]
      try omega
    refine List.map_congr_left fun i _ => ?_
    simp [ring_pt, Prod.ext_iff]
    try omega
  · dsimp only
    refine Prod.ext_iff.mpr ⟨by omega, by omega⟩

theorem hex_rings_eq (c : Int × Int) : ∀ (count r' : Nat),
    hex_rings (r' + 1) count (c.1, c.2 - (r' : Int)) = rings_from c r' count := by
  intro count
  induction count with
  | zero => intro r'; rfl
  | succ count ih =>
    intro r'
    rw [hex_rings]
    have hpos : ((c.1, c.2 - (r' : Int)).1, (c.1, c.2 - (r' : Int)).2 - 1) =
        (c.1, c.2 - ((r' + 1 : Nat) : Int)) := by
      refine Prod.ext_iff.mpr ⟨rfl, ?_⟩
      push_cast
      ring
    rw [hpos, hex_ring_eq c (r' + 1), rings_from]
    dsimp only
    congr 1
    exact ih (r' + 1)

theorem concentric_hexagons_eq (radius : Nat) (start : Int × Int) :
    concentric_hexagons radius start = start :: rings_from start 0 radius := by
  unfold concentric_hexagons
  congr 1
  have h := hex_rings_eq start radius 0
  simpa using h

theorem ring_full_length (c : Int × Int) (k : Nat) : (ring_full c k).length = 6 * k := by
  simp [ring_full]
  ring

theorem rings_from_length (c : Int × Int) : ∀ (count r' : Nat),
    (rings_from c r' count).length = 6 * count * r' + 3 * count * (count + 1) := by
  intro count
  induction count with
  | zero => intro r'; simp [rings_from]
  | succ count ih =>
    intro r'
    rw [rings_from, List.length_append, ring_full_length, ih (r' + 1)]
    ring

theorem mem_ring_full_range (c : Int × Int) (k : Nat) (x : Int × Int)
    (hx : x ∈ ring_full c k) : hex_range c x = k := by
  have hg : ∀ j, j < 6 → ∀ y ∈ (List.range k).map (ring_pt c k j), hex_range c y = k := by
    intro j hj y hy
    obtain ⟨i, hi, rfl⟩ := List.mem_map.mp hy
    exact ring_pt_range c k j i hj (List.mem_range.mp hi)
  unfold ring_full at hx
  rcases List.mem_append.mp hx with hx | h5
  · rcases List.mem_append.mp hx with hx | h4
    · rcases List.mem_append.mp hx with hx | h3
      · rcases List.mem_append.mp hx with hx | h2
        · rcases List.mem_append.mp hx with h0 | h1
          · exact hg 0 (by norm_num) x h0
          · exact hg 1 (by norm_num) x h1
        · exact hg 2 (by norm_num) x h2
      · exact hg 3 (by norm_num) x h3
    · exact hg 4 (by norm_num) x h4
  · exact hg 5 (by norm_num) x h5

theorem ring_seg_nodup (c : Int × Int) (k j : Nat) (hj : j < 6) :
    ((List.range k).map (ring_pt c k j)).Nodup := by
  refine List.Nodup.map_on ?_ (List.nodup_range k)
  intro i hi i' hi' heq
  exact (ring_pt_inj c k j i j i' hj hj (List.mem_range.mp hi)
    (List.mem_range.mp hi') heq).2

theorem ring_seg_disjoint (c : Int × Int) (k j j' : Nat) (hj : j < 6) (hj' : j' < 6)
    (hne : j ≠ j') :
    List.Disjoint ((List.range k).map (ring_pt c k j))
      ((List.range k).map (ring_pt c k j')) := by
  intro x hx hx'
  obtain ⟨i, hi, rfl⟩ := List.mem_map.mp hx
  obtain ⟨i', hi', heq⟩ := List.mem_map.mp hx'
  exact hne (ring_pt_inj c k j i j' i' hj hj' (List.mem_range.mp hi)
    (List.mem_range.mp hi') heq.symm).1

theorem ring_full_nodup (c : Int × Int) (k : Nat) : (ring_full c k).Nodup := by
  have s : ∀ j, j < 6 → ((List.range k).map (ring_pt c k j)).Nodup :=
    fun j hj => ring_seg_nodup c k j hj
  have d : ∀ j j', j < 6 → j' < 6 → j ≠ j' →
      List.Disjoint ((List.range k).map (ring_pt c k j))
        ((List.range k).map (ring_pt c k j')) :=
    fun j j' hj hj' hne => ring_seg_disjoint c k j j' hj hj' hne
  unfold ring_full
  refine List.Nodup.append ?_ (s 5 (by norm_num)) ?_
  · refine List.Nodup.append ?_ (s 4 (by norm_num)) ?_
    · refine List.Nodup.append ?_ (s 3 (by norm_num)) ?_
      · refine List.Nodup.append ?_ (s 2 (by norm_num)) ?_
        · exact List.Nodup.append (s 0 (by norm_num)) (s 1 (by norm_num))
            (d 0 1 (by norm_num) (by norm_num) (by norm_num))
        · simp only [List.disjoint_append_left]
          exact ⟨d 0 2 (by norm_num) (by norm_num) (by norm_num),
            d 1 2 (by norm_num) (by norm_num) (by norm_num)⟩
      · simp only [List.disjoint_append_left]
        exact ⟨⟨d 0 3 (by norm_num) (by norm_num) (by norm_num),
          d 1 3 (by norm_num) (by norm_num) (by norm_num)⟩,
          d 2 3 (by norm_num) (by norm_num) (by norm_num)⟩
    · simp only [List.disjoint_append_left]
      exact ⟨⟨⟨d 0 4 (by norm_num) (by norm_num) (by norm_num),
        d 1 4 (by norm_num) (by norm_num) (by norm_num)⟩,
        d 2 4 (by norm_num) (by norm_num) (by norm_num)⟩,
        d 3 4 (by norm_num) (by norm_num) (by norm_num)⟩
  · simp only [List.disjoint_append_left]
    exact ⟨⟨⟨⟨d 0 5 (by norm_num) (by norm_num) (by norm_num),
      d 1 5 (by norm_num) (by norm_num) (by norm_num)⟩,
      d 2 5 (by norm_num) (by norm_num) (by norm_num)⟩,
      d 3 5 (by norm_num) (by norm_num) (by norm_num)⟩,
      d 4 5 (by norm_num) (by norm_num) (by norm_num)⟩

theorem mem_rings_from_range (c : Int × Int) : ∀ (count r' : Nat) (x : Int × Int),
    x ∈ rings_from c r' count →
      (r' : Int) + 1 ≤ hex_range c x ∧ hex_range c x ≤ (r' : Int) + count := by
  intro count
  induction count with
  | zero =>
    intro r' x hx
    exact absurd hx (List.not_mem_nil x)
  | succ count ih =>
    intro r' x hx
    rw [rings_from] at hx
    rcases List.mem_append.mp hx with hx | hx
    · have h := mem_ring_full_range c (r' + 1) x hx
      push_cast at h ⊢
      omega
    · have h := ih (r' + 1) x hx
      push_cast at h ⊢
      omega

theorem rings_from_nodup (c : Int × Int) : ∀ (count r' : Nat),
    (rings_from c r' count).Nodup := by
  intro count
  induction count with
  | zero => intro r'; exact List.nodup_nil
  | succ count ih =>
    intro r'
    rw [rings_from]
    refine List.Nodup.append (ring_full_nodup c (r' + 1)) (ih (r' + 1)) ?_
    intro x hx hx'
    have h1 := mem_ring_full_range c (r' + 1) x hx
    have h2 := mem_rings_from_range c count (r' + 1) x hx'
    push_cast at h1 h2
    omega

/-- Claim C7: for every radius `r >= 0` and start coordinate,
`concentric_hexagons(r, start)` yields exactly `1 + 3r(r+1)` coordinates,
the first being the start, and all yielded coordinates are pairwise
distinct. -/
theorem concentric_hexagons_spec (radius : Nat) (start : Int × Int) :
    (concentric_hexagons radius start).length = 1 + 3 * radius * (radius + 1) ∧
      (concentric_hexagons radius start).Nodup ∧
      (concentric_hexagons radius start).head? = some start := by
  rw [concentric_hexagons_eq]
  refine ⟨?_, ?_, rfl⟩
  · rw [List.length_cons, rings_from_length start radius 0]
    ring
  · rw [List.nodup_cons]
    refine ⟨?_, rings_from_nodup start radius 0⟩
    intro hmem
    have h := mem_rings_from_range start radius 0 start hmem
    have hz : hex_range start start = 0 := by
      simp [hex_range]
    omega

set_option maxRecDepth 100000 in
/-- Claim C5 (evaluation at the failing input): running `ner_net` from
source `(0, 10)` with destinations `{(4, 7), (6, 7), (8, 7), (7, 4)}` on a
`20 x 20` mesh with `wrap_around=False` and `radius=2` ends with the
`RoutingTree` node at chip `(7, 7)` (object 10) a child of two distinct
parent nodes: the node at `(6, 7)` (object 9) and the node at `(7, 8)`
(object 16).  All destination sort keys are distinct and no
`longest_dimension_first` call ties, so this run is deterministic: no
random tie-break is ever consulted. -/
theorem ner_net_two_parents :
    (9, 10) ∈ (ner_net (fun _ v => sort_dims v) (fun _ _ => (0, 0, 0)) (0, 10)
        [(4, 7), (6, 7), (8, 7), (7, 4)] 20 20 false 2).edges ∧
      (16, 10) ∈ (ner_net (fun _ v => sort_dims v) (fun _ _ => (0, 0, 0)) (0, 10)
        [(4, 7), (6, 7), (8, 7), (7, 4)] 20 20 false 2).edges ∧
      (9, ((6 : Int), (7 : Int))) ∈ (ner_net (fun _ v => sort_dims v) (fun _ _ => (0, 0, 0))
        (0, 10) [(4, 7), (6, 7), (8, 7), (7, 4)] 20 20 false 2).nodes ∧
      (16, ((7 : Int), (8 : Int))) ∈ (ner_net (fun _ v => sort_dims v) (fun _ _ => (0, 0, 0))
        (0, 10) [(4, 7), (6, 7), (8, 7), (7, 4)] 20 20 false 2).nodes ∧
      (10, ((7 : Int), (7 : Int))) ∈ (ner_net (fun _ v => sort_dims v) (fun _ _ => (0, 0, 0))
        (0, 10) [(4, 7), (6, 7), (8, 7), (7, 4)] 20 20 false 2).nodes := by
  decide

set_option maxRecDepth 100000 in
/-- Counterexample to claim C9's first part: `ner_net`'s radius parameter
defaults to 10, not 20.  With destinations `{(11, 11), (12, 0)}` from
source `(0, 0)` on a `30 x 30` mesh the default-radius run differs from a
`radius=20` run (the radius-20 neighbour search finds `(11, 11)` for
destination `(12, 0)`; the default search does not).  No random tie-break
is consulted on this input. -/
theorem ner_net_default_radius_ne_20 :
    ner_net_with_defaults (fun _ v => sort_dims v) (fun _ _ => (0, 0, 0)) (0, 0)
        [(11, 11), (12, 0)] 30 30 ≠
      ner_net (fun _ v => sort_dims v) (fun _ _ => (0, 0, 0)) (0, 0)
        [(11, 11), (12, 0)] 30 30 false 20 := by
  decide

theorem mem_insert_sorted {α : Type} (key : α → Int) (x y : α) :
    ∀ l : List α, y ∈ insert_sorted key x l → y = x ∨ y ∈ l := by
  intro l
  induction l with
  | nil =>
    intro h
    exact Or.inl (List.mem_singleton.mp h)
  | cons z rest ih =>
    intro h
    unfold insert_sorted at h
    by_cases hc : key z ≤ key x
    · rw [if_pos hc] at h
      rcases List.mem_cons.mp h with h | h
      · exact Or.inr (h ▸ List.mem_cons_self z rest)
      · rcases ih h with h | h
        · exact Or.inl h
        · exact Or.inr (List.mem_cons_of_mem z h)
    · rw [if_neg hc] at h
      rcases List.mem_cons.mp h with h | h
      · exact Or.inl h
      · exact Or.inr h

theorem mem_sort_fold {α : Type} (key : α → Int) :
    ∀ (l : List α) (acc : List α) (y : α),
      y ∈ l.foldl (fun acc x => insert_sorted key x acc) acc → y ∈ acc ∨ y ∈ l := by
  intro l
  induction l with
  | nil =>
    intro acc y h
    exact Or.inl h
  | cons x rest ih =>
    intro acc y h
    rw [List.foldl_cons] at h
    rcases ih (insert_sorted key x acc) y h with h | h
    · rcases mem_insert_sorted key x y acc h with h | h
      · exact Or.inr (h ▸ List.mem_cons_self x rest)
      · exact Or.inl h
    · exact Or.inr (List.mem_cons_of_mem x h)

theorem mem_sort_by_key {α : Type} (key : α → Int) (l : List α) (y : α)
    (h : y ∈ sort_by_key key l) : y ∈ l := by
  rcases mem_sort_fold key l [] y h with h | h
  · exact absurd h (List.not_mem_nil y)
  · exact h

theorem foldl_congr_mem {α β : Type} (f g : β → α → β) (l : List α) (b : β)
    (h : ∀ x ∈ l, ∀ acc, f acc x = g acc x) : l.foldl f b = l.foldl g b := by
  induction l generalizing b with
  | nil => rfl
  | cons a rest ih =>
    rw [List.foldl_cons, List.foldl_cons, h a (List.mem_cons_self a rest)]
    exact ih _ fun x hx acc => h x (List.mem_cons_of_mem a hx) acc

theorem ner_neighbour_radius_zero (st : NerState) (d : Int × Int) (width height : Int)
    (wrap_around : Bool)
    (hd : wrap_around = true → ((d.1 % width, d.2 % height) : Int × Int) = d) :
    ner_neighbour st 0 d width height wrap_around = none := by
  unfold ner_neighbour
  have hch : concentric_hexagons 0 d = [d] := rfl
  rw [hch]
  cases wrap_around with
  | false => simp [List.find?]
  | true =>
    rw [List.map_cons, List.map_nil, if_pos rfl, hd rfl]
    simp [List.find?]

/-- Claim C9 (amended): the radius parameter of `ner_net` defaults to 10
(the `route` entry point defaults it to 20), and with `radius=0` the
neighbour search never finds a neighbour, so `ner_net` degenerates to pure
longest-dimension-first routing from the source (for wrapped machines,
provided every destination is in bounds, as placements are). -/
theorem ner_net_radius_spec (pick : Int × Int → Int × Int × Int → List (Nat × Int))
    (torus_pick : Int × Int → Int × Int → Int × Int × Int) (source : Int × Int)
    (destinations : List (Int × Int)) (width height : Int) (wrap_around : Bool)
    (hin : wrap_around = true → ∀ d ∈ destinations,
      ((d.1 % width, d.2 % height) : Int × Int) = d) :
    ner_net_with_defaults pick torus_pick source destinations width height =
        ner_net pick torus_pick source destinations width height false 10 ∧
      ner_net pick torus_pick source destinations width height wrap_around 0 =
        pure_source_ldf pick torus_pick source destinations width height wrap_around := by
  refine ⟨rfl, ?_⟩
  unfold ner_net pure_source_ldf
  refine foldl_congr_mem _ _ _ _ ?_
  intro d hd acc
  have hdm : d ∈ destinations := mem_sort_by_key (ner_key source width height wrap_around) destinations d hd
  have hnb : ner_neighbour acc 0 d width height wrap_around = none :=
    ner_neighbour_radius_zero acc d width height wrap_around (fun hw => hin hw d hdm)
  unfold ner_dest
  rw [hnb]
  rfl

/-- Witness for claim C9's amended statement on a concrete mesh input. -/
theorem ner_net_radius_spec_witness :
    ner_net_with_defaults (fun _ v => sort_dims v) (fun _ _ => (0, 0, 0)) (0, 0)
        [(1, 2)] 4 4 =
      ner_net (fun _ v => sort_dims v) (fun _ _ => (0, 0, 0)) (0, 0)
        [(1, 2)] 4 4 false 10 ∧
      ner_net (fun _ v => sort_dims v) (fun _ _ => (0, 0, 0)) (0, 0)
          [(1, 2)] 4 4 false 0 =
        pure_source_ldf (fun _ v => sort_dims v) (fun _ _ => (0, 0, 0)) (0, 0)
          [(1, 2)] 4 4 false :=
  ner_net_radius_spec (fun _ v => sort_dims v) (fun _ _ => (0, 0, 0)) (0, 0)
    [(1, 2)] 4 4 false (fun h => by cases h)

/-- Counterexample to claim C6: a routing tree rooted on a chip outside a
`1 x 1` machine makes `copy_and_disconnect_tree` fail with the
`AssertionError` of `assert new_parent is not None` - not with
`MachineHasDisconnectedSubregion` as the claim states. -/
theorem copy_and_disconnect_tree_dead_root_counterexample :
    copy_and_disconnect_tree (RoutingTree.mk (5, 5) RTChildren.nil) (Machine.mk 1 1 () [] [] []) =
        Except.error RouteErr.assertionError ∧
      RouteErr.assertionError ≠ RouteErr.machineHasDisconnectedSubregion := by
  refine ⟨?_, by decide⟩
  rfl

/-- Claim C6 (amended): for every routing tree whose root chip is not in
the machine (dead or out of bounds), `copy_and_disconnect_tree` (and hence
the router invoking it through `avoid_dead_links`) fails with the
`AssertionError` of `assert new_parent is not None, "Net cannot be sourced
from a dead chip."`, not with `MachineHasDisconnectedSubregion`. -/
theorem copy_and_disconnect_tree_dead_root {ρ : Type} (root : RoutingTree)
    (machine : Machine ρ)
    (hdead : machine.contains_chip root.chip = false) :
    copy_and_disconnect_tree root machine = Except.error RouteErr.assertionError ∧
      RouteErr.assertionError ≠ RouteErr.machineHasDisconnectedSubregion := by
  refine ⟨?_, by decide⟩
  obtain ⟨chip, children⟩ := root
  simp only [RoutingTree.chip] at hdead
  unfold copy_and_disconnect_tree
  rw [cad_loop]
  simp [hdead]

/-- Witness for claim C6's amended statement: a tree rooted at `(5, 5)` on
a `1 x 1` machine. -/
theorem copy_and_disconnect_tree_dead_root_witness :
    (Machine.mk 1 1 () [] [] [] : Machine Unit).contains_chip
        (RoutingTree.mk (5, 5) RTChildren.nil).chip = false ∧
      copy_and_disconnect_tree (RoutingTree.mk (5, 5) RTChildren.nil) (Machine.mk 1 1 () [] [] []) =
        Except.error RouteErr.assertionError ∧
      RouteErr.assertionError ≠ RouteErr.machineHasDisconnectedSubregion :=
  ⟨by decide, copy_and_disconnect_tree_dead_root (RoutingTree.mk (5, 5) RTChildren.nil)
    (Machine.mk 1 1 () [] [] []) (by decide)⟩

end Rig
